import Mathlib

/-!
# Verification of the dogmic bark-detection core (`scripts/pipeline_movie.py`)

Shallow embedding of the algorithmic core of the repository:

* `get_sample_time` — maps a source file name and a sample offset to an absolute
  wall-clock time (modelled as microseconds on a proleptic-Gregorian timeline);
* `test_peaks` — debounces amplitude candidates and validates each tested window
  by a band-energy ratio of its (time-averaged) spectral magnitude profile;
* `detectPeaks` / `calculate_barks` — amplitude thresholding and the greedy
  merge of accepted peaks into bark events.

Waveform samples and threshold/ratio arithmetic are modelled over `ℚ` (the
Python floats are treated as exact reals; the IEEE special values produced by
the source's divisions are modelled explicitly where they can arise).  The
short-time Fourier transform itself (`librosa.stft` followed by `np.abs` and a
time-average) is not a rational-arithmetic object; it enters the model as an
abstract parameter `profile : List ℚ → List ℚ` mapping a cut window to its
mean magnitude-per-frequency-bin profile.  Everything the code does *after*
that call is embedded faithfully.
-/

/-! ## Characters and digit strings -/

/-- `[0-9]` character test (what `strptime`'s numeric fields match). -/
def isDigitChar (c : Char) : Bool := 48 ≤ c.toNat && c.toNat ≤ 57

/-- Numeric value of a decimal digit character. -/
def digitVal (c : Char) : ℕ := c.toNat - 48

/-- Value of a most-significant-first decimal digit string. -/
def natOfDigits (cs : List Char) : ℕ := cs.foldl (fun a c => a * 10 + digitVal c) 0

/-! ## Civil date-times

`datetime.datetime` values are modelled by their broken-down fields plus a
microsecond component, and compared/shifted through their (exact) microsecond
position on the proleptic-Gregorian timeline, which is how naive `datetime`
arithmetic with `timedelta` behaves. -/

structure Civil where
  year : ℕ
  month : ℕ
  day : ℕ
  hour : ℕ
  minute : ℕ
  second : ℕ
  micro : ℕ
deriving DecidableEq

/-- Gregorian leap-year rule (as in Python's `calendar`/`datetime`). -/
def isLeap (y : ℕ) : Bool := y % 4 == 0 && (y % 100 != 0 || y % 400 == 0)

/-- Length of month `m` of year `y`. -/
def daysInMonth (y m : ℕ) : ℕ :=
  if m = 2 then (if isLeap y then 29 else 28)
  else if m = 4 ∨ m = 6 ∨ m = 9 ∨ m = 11 then 30
  else 31

/-- Days in year `y` strictly before month `m`. -/
def daysBeforeMonth (y m : ℕ) : ℕ :=
  [0, 31, 59, 90, 120, 151, 181, 212, 243, 273, 304, 334].getD (m - 1) 0
    + (if 2 < m && isLeap y then 1 else 0)

/-- The field ranges `datetime.datetime` accepts (`strptime` raises `ValueError`
outside them): year 1..9999, month 1..12, day within the month, hour ≤ 23,
minute ≤ 59, second ≤ 59, microsecond ≤ 999999. -/
def validDate (c : Civil) : Bool :=
  decide (1 ≤ c.year) && decide (c.year ≤ 9999) &&
  decide (1 ≤ c.month) && decide (c.month ≤ 12) &&
  decide (1 ≤ c.day) && decide (c.day ≤ daysInMonth c.year c.month) &&
  decide (c.hour ≤ 23) && decide (c.minute ≤ 59) && decide (c.second ≤ 59) &&
  decide (c.micro ≤ 999999)

/-- Microseconds from 0001-01-01 00:00:00 to a civil date-time on the
proleptic-Gregorian timeline (the scale on which naive `datetime` differences
and `timedelta` shifts are computed). -/
def civilMicros (c : Civil) : ℤ :=
  let y1 : ℤ := (c.year : ℤ) - 1
  let days : ℤ :=
    365 * y1 + y1 / 4 - y1 / 100 + y1 / 400
      + (daysBeforeMonth c.year c.month : ℤ) + ((c.day : ℤ) - 1)
  (days * 86400 + (c.hour : ℤ) * 3600 + (c.minute : ℤ) * 60 + (c.second : ℤ)) * 1000000
    + (c.micro : ℤ)

/-! ## Parsing the two filename conventions

The source (`get_sample_time`) dispatches on a `type` string with the two
values `'dogmic'` and `'camera'`; the spec's `RecordingStartConvention` is the
corresponding closed tagged variant. -/

inductive Conv where
  | dogmic
  | camera
deriving DecidableEq

/-! ## The strptime pattern engine

CPython's `strptime` compiles a format string into a regular expression,
accepts a string when `re.match` succeeds anchored at the start, raises
`ValueError` when the match does not consume the entire string
("unconverted data remains"), and finally raises `ValueError` when the
matched fields do not form a valid `datetime`.  The numeric directives are
ordered alternations — `%m` compiles to `1[0-2]|0[1-9]|[1-9]`, `%d` to
`3[0-1]|[1-2]\\d|0[1-9]|[1-9]| [1-9]`, `%H` to `2[0-3]|[0-1]\\d|\\d`, `%M` to
`[0-5]\\d|\\d`, `%S` to `6[0-1]|[0-5]\\d|\\d`, `%Y` to `\\d\\d\\d\\d` and `%f` to
`[0-9]{1,6}` — so fields need not be zero-padded: a two-digit value in range
is preferred, a single digit (for `%d` also a space followed by a nonzero
digit) is accepted as a fallback, and the engine backtracks over these
alternatives when the rest of the pattern cannot match. -/

/-- One directive of a strptime format: a literal character; `%Y` (exactly
four digits); a numeric field `num lo2 hi2 lo1 spaceAlt` whose alternatives,
in the engine's preference order, are two digits with value in `[lo2, hi2]`,
one digit with value at least `lo1`, and (when `spaceAlt`, the `%d` case) a
space followed by a nonzero digit; or `%f` (one to six fraction digits,
greedy, right-padded to microseconds). -/
inductive Tok where
  | lit : Char → Tok
  | year : Tok
  | num : ℕ → ℕ → ℕ → Bool → Tok
  | frac : Tok

/-- The candidate matches of one token against the head of the input, in the
regex engine's preference order: each candidate is the captured value (`none`
for a literal) paired with the remaining input. -/
def tokOptions : Tok → List Char → List (Option ℕ × List Char)
  | .lit ch, c :: rest => if c = ch then [(none, rest)] else []
  | .lit _, [] => []
  | .year, c1 :: c2 :: c3 :: c4 :: rest =>
    if isDigitChar c1 && isDigitChar c2 && isDigitChar c3 && isDigitChar c4 then
      [(some (natOfDigits [c1, c2, c3, c4]), rest)]
    else []
  | .year, _ => []
  | .num lo2 hi2 lo1 spaceAlt, cs =>
    (match cs with
      | c1 :: c2 :: rest =>
        if isDigitChar c1 && isDigitChar c2 &&
            decide (lo2 ≤ digitVal c1 * 10 + digitVal c2) &&
            decide (digitVal c1 * 10 + digitVal c2 ≤ hi2) then
          [(some (digitVal c1 * 10 + digitVal c2), rest)]
        else []
      | _ => []) ++
    (match cs with
      | c1 :: rest =>
        if isDigitChar c1 && decide (lo1 ≤ digitVal c1) then
          [(some (digitVal c1), rest)]
        else []
      | [] => []) ++
    (if spaceAlt then
      match cs with
      | c0 :: c1 :: rest =>
        if c0 = ' ' && isDigitChar c1 && decide (1 ≤ digitVal c1) then
          [(some (digitVal c1), rest)]
        else []
      | _ => []
    else [])
  | .frac, cs =>
    [6, 5, 4, 3, 2, 1].filterMap fun k =>
      if (cs.take k).length = k && (cs.take k).all isDigitChar then
        some (some (natOfDigits (cs.take k) * 10 ^ (6 - k)), cs.drop k)
      else none

/-- The backtracking matcher — `re.match` of a token list against the input.
Each token's alternatives are tried in preference order, backtracking when the
remainder of the pattern cannot match; the result is the captured values of
the first (preferred) complete match together with the unconsumed input.
Trailing input is permitted here and rejected by the callers, exactly as
`_strptime` checks `found.end()` only after `re.match` has returned. -/
def matchToks : List Tok → List Char → Option (List ℕ × List Char)
  | [], cs => some ([], cs)
  | t :: ts, cs =>
    (tokOptions t cs).findSome? fun vr =>
      (matchToks ts vr.2).map fun p => (vr.1.toList ++ p.1, p.2)

/-- The compiled form of `"%Y%m%d%H%M%S"`, the dogmic stem format. -/
def dogmicFormat : List Tok :=
  [.year, .num 1 12 1 false, .num 1 31 1 true, .num 0 23 0 false,
   .num 0 59 0 false, .num 0 61 0 false]

/-- The compiled form of `"1_%Y-%m-%d_%H-%M-%S_%f"`, the camera stem format. -/
def cameraFormat : List Tok :=
  [.lit '1', .lit '_', .year, .lit '-', .num 1 12 1 false, .lit '-',
   .num 1 31 1 true, .lit '_', .num 0 23 0 false, .lit '-', .num 0 59 0 false,
   .lit '-', .num 0 61 0 false, .lit '_', .frac]

/-- `strptime(stem, "%Y%m%d%H%M%S")`: the preferred regex match must consume
the whole stem and its six fields must form a valid `datetime`; `none` models
the raised `ValueError` (`TimestampParseError` in the spec). -/
def parseDogmic (stem : String) : Option Civil :=
  match matchToks dogmicFormat stem.toList with
  | some ([y, mo, d, h, mi, s], []) =>
    if validDate ⟨y, mo, d, h, mi, s, 0⟩ then some ⟨y, mo, d, h, mi, s, 0⟩
    else none
  | _ => none

/-- `strptime(stem, "1_%Y-%m-%d_%H-%M-%S_%f")`, the `%f` capture right-padded
to microseconds; `none` models the raised `ValueError`. -/
def parseCamera (stem : String) : Option Civil :=
  match matchToks cameraFormat stem.toList with
  | some ([y, mo, d, h, mi, s, f], []) =>
    if validDate ⟨y, mo, d, h, mi, s, f⟩ then some ⟨y, mo, d, h, mi, s, f⟩
    else none
  | _ => none

/-- Splitting a character list at every occurrence of a separator, the
semantics of Python's `str.split(sep)` (adjacent separators produce empty
pieces; the result is always non-empty). -/
def splitOnChar (sep : Char) : List Char → List (List Char)
  | [] => [[]]
  | c :: rest =>
    match splitOnChar sep rest with
    | [] => if c = sep then [[], []] else [[c]]
    | piece :: pieces =>
      if c = sep then [] :: piece :: pieces else (c :: piece) :: pieces

/-- Joining pieces with a separator character, the semantics of Python's
`sep.join(pieces)`. -/
def joinWithChar (sep : Char) : List (List Char) → List Char
  | [] => []
  | [piece] => piece
  | piece :: pieces => piece ++ sep :: joinWithChar sep pieces

/-- `'.'.join(os.path.basename(filename).split('.')[:-1])`: the stem of the
file name (the basename is the part after the last path separator; the last
dot-separated component — the extension — is removed). -/
def stemOf (filename : String) : String :=
  let base := (splitOnChar '/' filename.toList).getLastD []
  ⟨joinWithChar '.' ((splitOnChar '.' base).dropLast)⟩

/-- Truncation toward zero, the behaviour of Python's `int()` on a float. -/
def truncQ (q : ℚ) : ℤ := if q < 0 then ⌈q⌉ else ⌊q⌋

/-- Embedding of `get_sample_time(filename, sample_pos, sr, type)`.

The result is the absolute time in microseconds on the civil timeline, `none`
modelling the `ValueError` raised by `strptime` when the stem does not match
the convention's pattern.  The `camera` branch subtracts one hour (the file
time stamps the end of the recording); both branches then add
`int(sample_pos / sr)` whole seconds. -/
def get_sample_time (filename : String) (sample_pos : ℚ) (sr : ℕ) (conv : Conv) :
    Option ℤ :=
  let stem := stemOf filename
  let interval_secs : ℚ := sample_pos / (sr : ℚ)
  match conv with
  | .dogmic => (parseDogmic stem).map
      (fun c => civilMicros c + truncQ interval_secs * 1000000)
  | .camera => (parseCamera stem).map
      (fun c => (civilMicros c - 3600 * 1000000) + truncQ interval_secs * 1000000)

/-! ## Spectral validation (`test_peaks`)

The loop state is `last_peak` (a float initialised to `0`); a candidate closer
than `sr * window_duration` to it is skipped, every other candidate is tested
(and `last_peak` is updated to it whether or not it is accepted). -/

/-- `y[max(0, int(cpeak - sr*wd)) : min(len(y), int(cpeak + sr*wd))]` — the
validation window cut around a candidate (slice clipped to the signal; the
model assumes the upper bound is nonnegative, which holds for the
nonnegative window durations the pipeline uses). -/
def cutWindow (y : List ℚ) (cpeak sr : ℕ) (wd : ℚ) : List ℚ :=
  let s : ℤ := max 0 (truncQ ((cpeak : ℚ) - (sr : ℚ) * wd))
  let e : ℤ := min (y.length : ℤ) (truncQ ((cpeak : ℚ) + (sr : ℚ) * wd))
  (y.take e.toNat).drop s.toNat

/-- The accept decision applied to the mean spectral magnitude profile
`res_mean` of a window:

    res_mean /= np.sum(res_mean)
    int_freq = np.sum(res_mean[20:80]) + np.sum(res_mean[95:125])
    bark_amp = int_freq / (np.sum(res_mean) - int_freq)
    accept iff bark_amp > 0.5

Arithmetic is exact over `ℚ`.  Where the float code can produce IEEE special
values the comparison outcome is modelled explicitly: a zero denominator gives
`inf > 0.5` (true) for a positive numerator and `nan > 0.5` / `-inf > 0.5`
(false) otherwise.  A zero profile sum makes every normalized entry `nan` in
the source, so every downstream comparison is false; the `ℚ` convention
`x / 0 = 0` reaches the same (reject) outcome. -/
def barkAccept (res_mean : List ℚ) : Bool :=
  let s := res_mean.sum
  let norm := res_mean.map (fun x => x / s)
  let int_freq := ((norm.drop 20).take 60).sum + ((norm.drop 95).take 30).sum
  let denom := norm.sum - int_freq
  if denom = 0 then decide (0 < int_freq) else decide (1 / 2 < int_freq / denom)

/-- Result triple of `test_peaks`: `(verified_peak_pos, verified_peaks, not_barks)`. -/
structure ValidationResult where
  verified_peak_pos : List ℕ
  verified_peaks : List (List ℚ)
  not_barks : List (List ℚ)
deriving DecidableEq

/-- The `for cpeak in peak_pos` loop of `test_peaks`, with explicit `last_peak`
state.  `profile` abstracts `np.abs(librosa.stft(y_cut)).mean(axis=1)`. -/
def test_peaksGo (y : List ℚ) (sr : ℕ) (wd : ℚ) (profile : List ℚ → List ℚ) :
    List ℕ → ℚ → ValidationResult
  | [], _ => ⟨[], [], []⟩
  | cpeak :: rest, last_peak =>
    if (cpeak : ℚ) < last_peak + (sr : ℚ) * wd then
      test_peaksGo y sr wd profile rest last_peak
    else
      let y_cut := cutWindow y cpeak sr wd
      let r := test_peaksGo y sr wd profile rest (cpeak : ℚ)
      if barkAccept (profile y_cut) then
        ⟨cpeak :: r.verified_peak_pos, y_cut :: r.verified_peaks, r.not_barks⟩
      else
        ⟨r.verified_peak_pos, r.verified_peaks, y_cut :: r.not_barks⟩

/-- Embedding of `test_peaks(y, peak_pos, sr, window_duration)`. -/
def test_peaks (y : List ℚ) (peak_pos : List ℕ) (sr : ℕ) (wd : ℚ)
    (profile : List ℚ → List ℚ) : ValidationResult :=
  test_peaksGo y sr wd profile peak_pos 0

/-- Modelled from the amended debounce description: keep a candidate exactly
when it lies at least `d = sr * window_duration` past the most recently *kept*
(tested) candidate, the tracker starting at position `0`.  This is the
debounce policy of `test_peaks` separated from the spectral accept/reject
decision. -/
def debounceTested : List ℕ → ℚ → ℚ → List ℕ
  | [], _, _ => []
  | c :: rest, last, d =>
    if (c : ℚ) < last + d then debounceTested rest last d
    else c :: debounceTested rest (c : ℚ) d

/-! ## Peak detection and event segmentation (`calculate_barks`) -/

/-- `np.where(y > bark_threshold)[0]`: the sample indices whose amplitude
strictly exceeds the threshold, in ascending order. -/
def detectPeaks (y : List ℚ) (bark_threshold : ℚ) : List ℕ :=
  (List.range y.length).filter (fun i => decide (bark_threshold < y.getD i 0))

/-- One bark event row; the fields of the claims.  (`start_time`, `end_time`,
`duration` and `date` are resolved in the source by applying
`get_sample_time` to `start_samples` / `end_samples`.) -/
structure BarkEvent where
  start_samples : ℕ
  end_samples : ℚ
  num_barks : ℕ
deriving DecidableEq

/-- The lookahead of the segmentation loop:

    next_peak_index = peak_index + 1
    while next_peak_index < len(peak_pos) and
          peak_pos[next_peak_index] - peak_pos[peak_index] < bark_max_interval * sr:
        next_peak_index += 1

i.e. `i + 1` plus the maximal prefix of `peak_pos[i+1:]` lying within `d` of
`peak_pos[i]`. -/
def nextPeakIndex (peak_pos : List ℕ) (i : ℕ) (d : ℚ) : ℕ :=
  i + 1 + ((peak_pos.drop (i + 1)).takeWhile
    (fun p : ℕ => decide ((p : ℚ) - (peak_pos.getD i 0 : ℚ) < d))).length

/-- The outer `while not done` loop of `calculate_barks`, structurally
recursive on a fuel argument; the cursor advances by at least one index per
iteration, so `peak_pos.length` steps of fuel always suffice. -/
def segmentGo (peak_pos : List ℕ) (d : ℚ) : ℕ → ℕ → List BarkEvent
  | _, 0 => []
  | peak_index, fuel + 1 =>
    if peak_index < peak_pos.length then
      let next := nextPeakIndex peak_pos peak_index d
      ⟨peak_pos.getD peak_index 0, (peak_pos.getD (next - 1) 0 : ℚ) + d,
       next - peak_index⟩ :: segmentGo peak_pos d next fuel
    else []

/-- Segmentation of the accepted positions into bark events with
`d = bark_max_interval * sr` (an empty position list yields no events, as in
the source where the loop is skipped). -/
def segmentEvents (peak_pos : List ℕ) (bark_max_interval : ℚ) (sr : ℕ) :
    List BarkEvent :=
  segmentGo peak_pos (bark_max_interval * (sr : ℚ)) 0 peak_pos.length

/-- The waveform-to-events core of `calculate_barks`: threshold detection,
spectral validation, greedy segmentation. -/
def calculate_barks (y : List ℚ) (bark_threshold : ℚ) (sr : ℕ) (wd : ℚ)
    (profile : List ℚ → List ℚ) (bark_max_interval : ℚ) : List BarkEvent :=
  let peak_pos := detectPeaks y bark_threshold
  let accepted := (test_peaks y peak_pos sr wd profile).verified_peak_pos
  segmentEvents accepted bark_max_interval sr

/-! ## Spec-side formulations

The following definitions are written from the specification's wording (not
from the source) and are only used on the right-hand side of refinement
theorems comparing them with the embedded code. -/

/-- Spec formulation of the segmenter's merge boundary: the first index
`j > i` whose position lies at least `d = maxInterval * sampleRate` beyond the
position at `i` — the index of the event's *first* peak — or the length of the
list when no such index exists. -/
def specBreak (peak_pos : List ℕ) (i : ℕ) (d : ℚ) : ℕ :=
  match (List.range peak_pos.length).find? (fun j =>
      decide (i < j) &&
      decide (d ≤ (peak_pos.getD j 0 : ℚ) - (peak_pos.getD i 0 : ℚ))) with
  | some j => j
  | none => peak_pos.length

/-- Spec formulation of the event builder: each event covers the run of
accepted positions from its first peak `i` up to `specBreak i`, with
`start_sample = acceptedPositions[i]`,
`end_sample = acceptedPositions[j-1] + d` (not clipped) and
`num_barks = j - i`. -/
def specSegmentGo (peak_pos : List ℕ) (d : ℚ) : ℕ → ℕ → List BarkEvent
  | _, 0 => []
  | i, fuel + 1 =>
    if i < peak_pos.length then
      let j := specBreak peak_pos i d
      ⟨peak_pos.getD i 0, (peak_pos.getD (j - 1) 0 : ℚ) + d, j - i⟩ ::
        specSegmentGo peak_pos d j fuel
    else []

/-- Spec formulation of the whole segmentation. -/
def specSegmentEvents (peak_pos : List ℕ) (maxInterval : ℚ) (sr : ℕ) :
    List BarkEvent :=
  specSegmentGo peak_pos (maxInterval * (sr : ℚ)) 0 peak_pos.length

/-! ## Concrete data for counterexamples and witnesses -/

/-- A spectral profile whose band-energy test accepts: mass 3 in bin 20
against mass 1 outside gives `bark_amp = 3 > 0.5`. -/
def barkProfile : List ℚ := 1 :: (List.replicate 19 0 ++ [3])

/-- A spectral profile whose band-energy test rejects: all mass in bin 0
gives `bark_amp = 0`. -/
def flatProfile : List ℚ := [1]

/-- A ten-sample waveform distinguishing the validation windows of candidates
4 and 6 (at `sr = 4`, `window_duration = 1` these are `y[0:8]` and `y[2:10]`). -/
def yC3 : List ℚ := [9, 0, 1, 0, 0, 0, 0, 0, 0, 0]

/-- A profile function rejecting the window around candidate 4 of `yC3` (its
window starts with 9) and accepting the window around candidate 6 (starts
with 1). -/
def spC3 : List ℚ → List ℚ :=
  fun w => if w.getD 0 0 = 1 then barkProfile else flatProfile

/-! ## List helper lemmas -/

theorem takeWhileLenLe (p : α → Bool) : ∀ l : List α, (l.takeWhile p).length ≤ l.length
  | [] => Nat.le_refl 0
  | a :: l => by
    rw [List.takeWhile_cons]
    by_cases h : p a = true
    · simp only [h, if_true, List.length_cons]
      exact Nat.succ_le_succ (takeWhileLenLe p l)
    · simp only [h, if_false, List.length_nil]
      exact Nat.zero_le _

theorem getDDrop (l : List α) (a t : ℕ) (dflt : α) :
    (l.drop a).getD t dflt = l.getD (a + t) dflt := by
  simp [List.getD, List.getElem?_drop]

theorem takeWhileGetDProp (p : α → Bool) (dflt : α) :
    ∀ (l : List α) (k : ℕ), k < (l.takeWhile p).length → p (l.getD k dflt) = true
  | a :: l, 0, hk => by
    rw [List.takeWhile_cons] at hk
    by_cases h : p a = true
    · simpa using h
    · simp [h] at hk
  | a :: l, k + 1, hk => by
    rw [List.takeWhile_cons] at hk
    by_cases h : p a = true
    · simp only [h, if_true, List.length_cons, Nat.succ_lt_succ_iff] at hk
      simpa [List.getD_cons_succ] using takeWhileGetDProp p dflt l k hk
    · simp [h] at hk

theorem takeWhileGetDStop (p : α → Bool) (dflt : α) :
    ∀ l : List α, (l.takeWhile p).length < l.length →
      p (l.getD (l.takeWhile p).length dflt) = false
  | a :: l, hk => by
    rw [List.takeWhile_cons] at hk ⊢
    by_cases h : p a = true
    · simp only [h, if_true, List.length_cons, Nat.succ_lt_succ_iff] at hk ⊢
      simpa [List.getD_cons_succ] using takeWhileGetDStop p dflt l hk
    · simp only [h, if_false, List.length_nil, List.getD_cons_zero]
      exact Bool.not_eq_true _ ▸ h

theorem findRangeEqSome (n : ℕ) (p : ℕ → Bool) (j : ℕ) (hj : j < n)
    (hpj : p j = true) (hmin : ∀ k, k < j → p k = false) :
    (List.range n).find? p = some j := by
  induction n with
  | zero => exact absurd hj (Nat.not_lt_zero j)
  | succ n ih =>
    rw [List.range_succ, List.find?_append]
    rcases Nat.lt_succ_iff_lt_or_eq.mp hj with h | h
    · rw [ih h, Option.or_some]
    · subst h
      have hnone : (List.range j).find? p = none := by
        rw [List.find?_eq_none]
        intro x hx
        simp [hmin x (List.mem_range.mp hx)]
      rw [hnone, Option.none_or]
      simp [List.find?, hpj]

theorem findRangeEqNone (n : ℕ) (p : ℕ → Bool) (h : ∀ k, k < n → p k = false) :
    (List.range n).find? p = none := by
  rw [List.find?_eq_none]
  intro x hx
  simp [h x (List.mem_range.mp hx)]

/-! ## Properties of the segmentation lookahead -/

theorem nextPeakIndexGt (peak_pos : List ℕ) (i : ℕ) (d : ℚ) :
    i < nextPeakIndex peak_pos i d := by
  unfold nextPeakIndex
  omega

theorem nextPeakIndexLe (peak_pos : List ℕ) (i : ℕ) (d : ℚ)
    (hi : i < peak_pos.length) : nextPeakIndex peak_pos i d ≤ peak_pos.length := by
  unfold nextPeakIndex
  have h := takeWhileLenLe
    (fun p : ℕ => decide ((p : ℚ) - (peak_pos.getD i 0 : ℚ) < d)) (peak_pos.drop (i + 1))
  rw [List.length_drop] at h
  omega

theorem nextPeakIndexCond (peak_pos : List ℕ) (i : ℕ) (d : ℚ) (m : ℕ)
    (him : i < m) (hm : m < nextPeakIndex peak_pos i d) :
    (peak_pos.getD m 0 : ℚ) - (peak_pos.getD i 0 : ℚ) < d := by
  unfold nextPeakIndex at hm
  set q : ℕ → Bool := fun p : ℕ => decide ((p : ℚ) - (peak_pos.getD i 0 : ℚ) < d) with hq
  have ht : m - (i + 1) < ((peak_pos.drop (i + 1)).takeWhile q).length := by omega
  have hp := takeWhileGetDProp q 0 (peak_pos.drop (i + 1)) (m - (i + 1)) ht
  rw [getDDrop] at hp
  have hmi : i + 1 + (m - (i + 1)) = m := by omega
  rw [hmi] at hp
  simp only [hq] at hp
  exact of_decide_eq_true hp

theorem nextPeakIndexStop (peak_pos : List ℕ) (i : ℕ) (d : ℚ)
    (h : nextPeakIndex peak_pos i d < peak_pos.length) :
    d ≤ (peak_pos.getD (nextPeakIndex peak_pos i d) 0 : ℚ) - (peak_pos.getD i 0 : ℚ) := by
  unfold nextPeakIndex at h ⊢
  set q : ℕ → Bool := fun p : ℕ => decide ((p : ℚ) - (peak_pos.getD i 0 : ℚ) < d) with hq
  have hlen : ((peak_pos.drop (i + 1)).takeWhile q).length <
      (peak_pos.drop (i + 1)).length := by
    rw [List.length_drop]
    omega
  have hp := takeWhileGetDStop q 0 (peak_pos.drop (i + 1)) hlen
  rw [getDDrop] at hp
  simp only [hq] at hp
  exact le_of_not_lt (of_decide_eq_false hp)

/-- The source's lookahead loop computes exactly the spec's "first index `j > i`
at distance at least `d` from the event's first peak, or the end of the list". -/
theorem nextPeakIndexEqSpecBreak (peak_pos : List ℕ) (i : ℕ) (d : ℚ)
    (hi : i < peak_pos.length) :
    specBreak peak_pos i d = nextPeakIndex peak_pos i d := by
  have hiJ : i < nextPeakIndex peak_pos i d := nextPeakIndexGt peak_pos i d
  have hJn : nextPeakIndex peak_pos i d ≤ peak_pos.length :=
    nextPeakIndexLe peak_pos i d hi
  have hmin : ∀ k, k < nextPeakIndex peak_pos i d →
      (decide (i < k) &&
        decide (d ≤ (peak_pos.getD k 0 : ℚ) - (peak_pos.getD i 0 : ℚ))) = false := by
    intro k hk
    by_cases hik : i < k
    · have hc := nextPeakIndexCond peak_pos i d k hik hk
      rw [decide_eq_false (not_le.mpr hc), Bool.and_false]
    · rw [decide_eq_false hik, Bool.false_and]
  unfold specBreak
  rcases Nat.lt_or_ge (nextPeakIndex peak_pos i d) peak_pos.length with hlt | hge
  · have hpJ : (decide (i < nextPeakIndex peak_pos i d) &&
        decide (d ≤ (peak_pos.getD (nextPeakIndex peak_pos i d) 0 : ℚ)
          - (peak_pos.getD i 0 : ℚ))) = true := by
      rw [decide_eq_true hiJ, decide_eq_true (nextPeakIndexStop peak_pos i d hlt)]
      rfl
    rw [findRangeEqSome peak_pos.length _ (nextPeakIndex peak_pos i d) hlt hpJ hmin]
  · have hJeq : nextPeakIndex peak_pos i d = peak_pos.length := Nat.le_antisymm hJn hge
    rw [findRangeEqNone peak_pos.length _ (fun k hk => hmin k (hJeq.symm ▸ hk))]
    exact hJeq.symm

/-! ## Segmentation theorems -/

theorem segmentGoEqSpec (peak_pos : List ℕ) (d : ℚ) :
    ∀ (fuel i : ℕ), segmentGo peak_pos d i fuel = specSegmentGo peak_pos d i fuel := by
  intro fuel
  induction fuel with
  | zero => intro i; rfl
  | succ fuel ih =>
    intro i
    by_cases hi : i < peak_pos.length
    · simp only [segmentGo, specSegmentGo, hi, if_true,
        nextPeakIndexEqSpecBreak peak_pos i d hi, ih]
    · simp only [segmentGo, specSegmentGo, hi, if_false]

theorem segmentGoSum (peak_pos : List ℕ) (d : ℚ) :
    ∀ (fuel i : ℕ), peak_pos.length - i ≤ fuel →
      ((segmentGo peak_pos d i fuel).map BarkEvent.num_barks).sum =
        peak_pos.length - i := by
  intro fuel
  induction fuel with
  | zero => intro i h; simp only [segmentGo, List.map_nil, List.sum_nil]; omega
  | succ fuel ih =>
    intro i h
    by_cases hi : i < peak_pos.length
    · have hgt := nextPeakIndexGt peak_pos i d
      have hle := nextPeakIndexLe peak_pos i d hi
      have hrec := ih (nextPeakIndex peak_pos i d) (by omega)
      simp only [segmentGo, hi, if_true, List.map_cons, List.sum_cons, hrec]
      omega
    · simp only [segmentGo, hi, if_false, List.map_nil, List.sum_nil]
      omega

theorem segmentGoStartMem (peak_pos : List ℕ) (d : ℚ) :
    ∀ (fuel i : ℕ) (e : BarkEvent), e ∈ segmentGo peak_pos d i fuel →
      e.start_samples ∈ peak_pos := by
  intro fuel
  induction fuel with
  | zero => intro i e h; simp [segmentGo] at h
  | succ fuel ih =>
    intro i e h
    by_cases hi : i < peak_pos.length
    · simp only [segmentGo, hi, if_true, List.mem_cons] at h
      rcases h with h | h
      · subst h
        rw [List.getD_eq_getElem _ _ hi]
        exact List.getElem_mem hi
      · exact ih _ e h
    · simp [segmentGo, hi] at h

/-- C1: for every non-empty list of accepted peak positions the event
segmenter agrees with the spec's description: each event runs from its first
peak `i` to the first index `j > i` lying at least `maxInterval * sampleRate`
beyond position `i` (lookahead against the event's FIRST peak), and carries
`start_sample = acceptedPositions[i]`,
`end_sample = acceptedPositions[j-1] + maxInterval * sampleRate` (not clipped
to the signal length) and `num_barks = j - i`. -/
theorem segmentEventsMatchesSpec (peak_pos : List ℕ) (maxInterval : ℚ) (sr : ℕ)
    (_hne : peak_pos ≠ []) :
    segmentEvents peak_pos maxInterval sr = specSegmentEvents peak_pos maxInterval sr := by
  unfold segmentEvents specSegmentEvents
  exact segmentGoEqSpec peak_pos (maxInterval * (sr : ℚ)) peak_pos.length 0

theorem segmentEventsMatchesSpecWitness :
    segmentEvents [0, 5, 100] 2 3 = specSegmentEvents [0, 5, 100] 2 3 :=
  segmentEventsMatchesSpec [0, 5, 100] 2 3 (by simp)

/-- C8: the events of a run partition the accepted positions — the sum of
`num_barks` over all emitted events equals the number of accepted positions
returned by the spectral validator for that same run. -/
theorem numBarksCountConservation (y : List ℚ) (bark_threshold : ℚ) (sr : ℕ)
    (wd : ℚ) (profile : List ℚ → List ℚ) (bark_max_interval : ℚ) :
    ((calculate_barks y bark_threshold sr wd profile bark_max_interval).map
        BarkEvent.num_barks).sum =
      (test_peaks y (detectPeaks y bark_threshold) sr wd
        profile).verified_peak_pos.length := by
  unfold calculate_barks segmentEvents
  rw [segmentGoSum _ _ _ 0 (by omega)]
  omega

/-! ## Validator theorems -/

theorem test_peaksGoPosEqFilter (y : List ℚ) (sr : ℕ) (wd : ℚ)
    (profile : List ℚ → List ℚ) :
    ∀ (cands : List ℕ) (last : ℚ),
      (test_peaksGo y sr wd profile cands last).verified_peak_pos =
        (debounceTested cands last ((sr : ℚ) * wd)).filter
          (fun c => barkAccept (profile (cutWindow y c sr wd))) := by
  intro cands
  induction cands with
  | nil => intro last; rfl
  | cons c rest ih =>
    intro last
    by_cases hskip : (c : ℚ) < last + (sr : ℚ) * wd
    · simp only [test_peaksGo, debounceTested, hskip, if_true, ih]
    · by_cases hacc : barkAccept (profile (cutWindow y c sr wd)) = true
      · simp only [test_peaksGo, debounceTested, hskip, if_false, hacc, if_true,
          List.filter_cons, ih]
      · rw [Bool.not_eq_true] at hacc
        simp only [test_peaksGo, debounceTested, hskip, if_false, hacc,
          Bool.false_eq_true, if_false, List.filter_cons, ih]

theorem debounceTestedMemGe (d : ℚ) (hd : 0 ≤ d) :
    ∀ (cands : List ℕ) (last : ℚ) (p : ℕ),
      p ∈ debounceTested cands last d → last + d ≤ (p : ℚ) := by
  intro cands
  induction cands with
  | nil => intro last p h; simp [debounceTested] at h
  | cons c rest ih =>
    intro last p h
    by_cases hskip : (c : ℚ) < last + d
    · simp only [debounceTested, hskip, if_true] at h
      exact ih last p h
    · simp only [debounceTested, hskip, if_false, List.mem_cons] at h
      rcases h with h | h
      · subst h
        exact le_of_not_lt hskip
      · have hc := ih (c : ℚ) p h
        have hlc : last + d ≤ (c : ℚ) := le_of_not_lt hskip
        linarith

theorem debounceTestedPairwise (d : ℚ) (hd : 0 ≤ d) :
    ∀ (cands : List ℕ) (last : ℚ),
      (debounceTested cands last d).Pairwise
        (fun a b : ℕ => (a : ℚ) + d ≤ (b : ℚ)) := by
  intro cands
  induction cands with
  | nil => intro last; exact List.Pairwise.nil
  | cons c rest ih =>
    intro last
    by_cases hskip : (c : ℚ) < last + d
    · simp only [debounceTested, hskip, if_true]
      exact ih last
    · simp only [debounceTested, hskip, if_false]
      refine List.Pairwise.cons ?_ (ih (c : ℚ))
      intro q hq
      exact debounceTestedMemGe d hd rest (c : ℚ) q hq

theorem acceptedSubsetTested (y : List ℚ) (sr : ℕ) (wd : ℚ)
    (profile : List ℚ → List ℚ) (cands : List ℕ) (p : ℕ)
    (h : p ∈ (test_peaks y cands sr wd profile).verified_peak_pos) :
    p ∈ debounceTested cands 0 ((sr : ℚ) * wd) := by
  rw [test_peaks, test_peaksGoPosEqFilter] at h
  exact (List.mem_filter.mp h).1

theorem acceptedPairwise (y : List ℚ) (sr : ℕ) (wd : ℚ)
    (profile : List ℚ → List ℚ) (cands : List ℕ) (hd : 0 ≤ (sr : ℚ) * wd) :
    ((test_peaks y cands sr wd profile).verified_peak_pos).Pairwise
      (fun a b : ℕ => (a : ℚ) + (sr : ℚ) * wd ≤ (b : ℚ)) := by
  rw [test_peaks, test_peaksGoPosEqFilter]
  exact List.Pairwise.sublist (List.filter_sublist _)
    (debounceTestedPairwise ((sr : ℚ) * wd) hd cands 0)

/-- C4: the debounce law — any two distinct positions accepted by the
spectral validator differ by at least `sampleRate * windowDuration` samples. -/
theorem debounceLaw (y : List ℚ) (cands : List ℕ) (sr : ℕ) (wd : ℚ)
    (profile : List ℚ → List ℚ) (p q : ℕ)
    (hp : p ∈ (test_peaks y cands sr wd profile).verified_peak_pos)
    (hq : q ∈ (test_peaks y cands sr wd profile).verified_peak_pos)
    (hne : p ≠ q) : (sr : ℚ) * wd ≤ |(p : ℚ) - (q : ℚ)| := by
  rcases le_or_lt 0 ((sr : ℚ) * wd) with hd | hd
  · have hpw := acceptedPairwise y sr wd profile cands hd
    have hpw2 : ((test_peaks y cands sr wd profile).verified_peak_pos).Pairwise
        (fun a b : ℕ =>
          (a : ℚ) + (sr : ℚ) * wd ≤ (b : ℚ) ∨ (b : ℚ) + (sr : ℚ) * wd ≤ (a : ℚ)) :=
      hpw.imp (fun h => Or.inl h)
    have hsymm : Symmetric (fun a b : ℕ =>
        (a : ℚ) + (sr : ℚ) * wd ≤ (b : ℚ) ∨ (b : ℚ) + (sr : ℚ) * wd ≤ (a : ℚ)) :=
      fun a b h => h.symm
    have hor := hpw2.forall hsymm hp hq hne
    rw [le_abs]
    rcases hor with h | h
    · right; linarith
    · left; linarith
  · exact le_trans (le_of_lt hd) (abs_nonneg _)

theorem debounceLawWitness :
    ((4 : ℕ) : ℚ) * 1 ≤ |((4 : ℕ) : ℚ) - ((9 : ℕ) : ℚ)| := by
  have hmem : (test_peaks [] [4, 9] 4 1
      (fun _ => barkProfile)).verified_peak_pos = [4, 9] := by
    norm_num [test_peaks, test_peaksGo, barkAccept, barkProfile, List.replicate]
  exact debounceLaw [] [4, 9] 4 1 (fun _ => barkProfile) 4 9
    (by rw [hmem]; simp) (by rw [hmem]; simp) (by omega)

theorem memAcceptedBarkAccept (y : List ℚ) (sr : ℕ) (wd : ℚ)
    (profile : List ℚ → List ℚ) (cands : List ℕ) (p : ℕ)
    (h : p ∈ (test_peaks y cands sr wd profile).verified_peak_pos) :
    barkAccept (profile (cutWindow y p sr wd)) = true := by
  rw [test_peaks, test_peaksGoPosEqFilter] at h
  exact (List.mem_filter.mp h).2

theorem testedRejectedMemNotBarks (y : List ℚ) (sr : ℕ) (wd : ℚ)
    (profile : List ℚ → List ℚ) :
    ∀ (cands : List ℕ) (last : ℚ) (c : ℕ),
      c ∈ debounceTested cands last ((sr : ℚ) * wd) →
      barkAccept (profile (cutWindow y c sr wd)) = false →
      cutWindow y c sr wd ∈ (test_peaksGo y sr wd profile cands last).not_barks := by
  intro cands
  induction cands with
  | nil => intro last c h _; simp [debounceTested] at h
  | cons c0 rest ih =>
    intro last c h hrej
    by_cases hskip : (c0 : ℚ) < last + (sr : ℚ) * wd
    · simp only [debounceTested, hskip, if_true] at h
      simp only [test_peaksGo, hskip, if_true]
      exact ih last c h hrej
    · simp only [debounceTested, hskip, if_false, List.mem_cons] at h
      simp only [test_peaksGo, hskip, if_false]
      by_cases hacc : barkAccept (profile (cutWindow y c0 sr wd)) = true
      · simp only [hacc, if_true]
        rcases h with h | h
        · subst h
          rw [hacc] at hrej
          exact absurd hrej (by simp)
        · exact ih (c0 : ℚ) c h hrej
      · rw [Bool.not_eq_true] at hacc
        simp only [hacc, Bool.false_eq_true, if_false]
        rcases h with h | h
        · subst h
          exact List.mem_cons_self _ _
        · exact List.mem_cons_of_mem _ (ih (c0 : ℚ) c h hrej)

theorem barkAcceptZeroSum (res_mean : List ℚ) (hs : res_mean.sum = 0) :
    barkAccept res_mean = false := by
  have hzero : ∀ x ∈ res_mean.map (fun x => x / res_mean.sum), x = 0 := by
    intro x hx
    rcases List.mem_map.mp hx with ⟨a, _, rfl⟩
    rw [hs, div_zero]
  have hnorm : (res_mean.map (fun x => x / res_mean.sum)).sum = 0 :=
    List.sum_eq_zero hzero
  have h1 : (((res_mean.map (fun x => x / res_mean.sum)).drop 20).take 60).sum = 0 :=
    List.sum_eq_zero
      (fun x hx => hzero x (List.mem_of_mem_drop (List.mem_of_mem_take hx)))
  have h2 : (((res_mean.map (fun x => x / res_mean.sum)).drop 95).take 30).sum = 0 :=
    List.sum_eq_zero
      (fun x hx => hzero x (List.mem_of_mem_drop (List.mem_of_mem_take hx)))
  simp only [barkAccept, h1, h2, hnorm]
  norm_num

/-- C3 counterexample: with candidates `[4, 6]` at `sr = 4`,
`window_duration = 1`, candidate 4 is tested and spectrally rejected, after
which the code skips candidate 6 — even though no peak has been accepted
(`lastAccepted` would still be 0), candidate 6 lies past
`0 + sampleRate * windowDuration`, and its window passes the spectral test.
Under the claim's accepted-peak debounce, 6 would be accepted; the code
accepts nothing. -/
theorem debounceClaimCounterexample :
    (test_peaks yC3 [4, 6] 4 1 spC3).verified_peak_pos = [] ∧
    barkAccept (spC3 (cutWindow yC3 6 4 1)) = true ∧
    ¬((6 : ℚ) < 0 + (4 : ℕ) * (1 : ℚ)) := by
  refine ⟨?_, ?_, ?_⟩
  · norm_num [test_peaks, test_peaksGo, barkAccept, spC3, cutWindow, yC3, truncQ,
      barkProfile, flatProfile, List.replicate]
  · have hcut : cutWindow yC3 6 4 1 = [1, 0, 0, 0, 0, 0, 0, 0] := by
      norm_num [cutWindow, yC3, truncQ]
      simp
    rw [hcut]
    norm_num [spC3, barkAccept, barkProfile, List.replicate]
  · norm_num

/-- C3 (amended): the spectral validator's debounce skips a candidate exactly
when it lies less than `sampleRate * windowDuration` past the most recently
TESTED candidate (whether that candidate was accepted or rejected), the
tracker starting at position 0; the accepted output is the spectral filter of
that tested subsequence. -/
theorem debounceAgainstLastTested (y : List ℚ) (cands : List ℕ) (sr : ℕ)
    (wd : ℚ) (profile : List ℚ → List ℚ) :
    (test_peaks y cands sr wd profile).verified_peak_pos =
      (debounceTested cands 0 ((sr : ℚ) * wd)).filter
        (fun c => barkAccept (profile (cutWindow y c sr wd))) :=
  test_peaksGoPosEqFilter y sr wd profile cands 0

/-- C7: a validation window with zero total spectral energy is never
accepted; its candidate is rejected (the window lands among the rejected
windows when the candidate is tested) and the band-ratio computation is total
— no division error is possible. -/
theorem zeroEnergyWindowRejected (y : List ℚ) (cands : List ℕ) (sr : ℕ)
    (wd : ℚ) (profile : List ℚ → List ℚ) (c : ℕ)
    (hsum : (profile (cutWindow y c sr wd)).sum = 0)
    (_hnn : ∀ x ∈ profile (cutWindow y c sr wd), 0 ≤ x) :
    barkAccept (profile (cutWindow y c sr wd)) = false ∧
    c ∉ (test_peaks y cands sr wd profile).verified_peak_pos ∧
    (c ∈ debounceTested cands 0 ((sr : ℚ) * wd) →
      cutWindow y c sr wd ∈ (test_peaks y cands sr wd profile).not_barks) := by
  have hrej := barkAcceptZeroSum _ hsum
  refine ⟨hrej, ?_, ?_⟩
  · intro hmem
    have hacc := memAcceptedBarkAccept y sr wd profile cands c hmem
    rw [hrej] at hacc
    exact absurd hacc (by simp)
  · intro htest
    exact testedRejectedMemNotBarks y sr wd profile cands 0 c htest hrej

theorem zeroEnergyWindowRejectedWitness :
    barkAccept ((fun w : List ℚ => w)
        (cutWindow [0, 0, 0, 0, 0, 0, 0, 0] 4 4 1)) = false ∧
    4 ∉ (test_peaks [0, 0, 0, 0, 0, 0, 0, 0] [4] 4 1
        (fun w : List ℚ => w)).verified_peak_pos ∧
    cutWindow [0, 0, 0, 0, 0, 0, 0, 0] 4 4 1 ∈
      (test_peaks [0, 0, 0, 0, 0, 0, 0, 0] [4] 4 1
        (fun w : List ℚ => w)).not_barks := by
  have h := zeroEnergyWindowRejected [0, 0, 0, 0, 0, 0, 0, 0] [4] 4 1
    (fun w : List ℚ => w) 4
    (by norm_num [cutWindow, truncQ]; simp)
    (by norm_num [cutWindow, truncQ]; simp)
  exact ⟨h.1, h.2.1, h.2.2 (by norm_num [debounceTested])⟩

/-- C10: because the debounce tracker starts at position 0, no candidate
earlier than `sampleRate * windowDuration` samples into the recording is ever
tested or accepted, and hence no bark event can start inside that initial
region. -/
theorem earlyRegionNeverProducesEvents (y : List ℚ) (cands : List ℕ) (sr : ℕ)
    (wd : ℚ) (profile : List ℚ → List ℚ) (maxInterval : ℚ) :
    (∀ p ∈ debounceTested cands 0 ((sr : ℚ) * wd), (sr : ℚ) * wd ≤ (p : ℚ)) ∧
    (∀ p ∈ (test_peaks y cands sr wd profile).verified_peak_pos,
      (sr : ℚ) * wd ≤ (p : ℚ)) ∧
    (∀ e ∈ segmentEvents (test_peaks y cands sr wd profile).verified_peak_pos
        maxInterval sr, (sr : ℚ) * wd ≤ (e.start_samples : ℚ)) := by
  have h1 : ∀ p ∈ debounceTested cands 0 ((sr : ℚ) * wd),
      (sr : ℚ) * wd ≤ (p : ℚ) := by
    intro p hp
    rcases le_or_lt 0 ((sr : ℚ) * wd) with hd | hd
    · have := debounceTestedMemGe ((sr : ℚ) * wd) hd cands 0 p hp
      linarith
    · have hp0 : (0 : ℚ) ≤ (p : ℚ) := Nat.cast_nonneg p
      linarith
  have h2 : ∀ p ∈ (test_peaks y cands sr wd profile).verified_peak_pos,
      (sr : ℚ) * wd ≤ (p : ℚ) :=
    fun p hp => h1 p (acceptedSubsetTested y sr wd profile cands p hp)
  refine ⟨h1, h2, ?_⟩
  intro e he
  rw [segmentEvents] at he
  exact h2 e.start_samples (segmentGoStartMem _ _ _ _ e he)

theorem earlyRegionNeverProducesEventsWitness :
    ((4 : ℕ) : ℚ) * 1 ≤ ((4 : ℕ) : ℚ) ∧ ((4 : ℕ) : ℚ) * 1 ≤ ((9 : ℕ) : ℚ) ∧
    ((4 : ℕ) : ℚ) * 1 ≤ (((⟨4, 49, 2⟩ : BarkEvent).start_samples : ℕ) : ℚ) := by
  have hacc : (test_peaks [] [4, 9] 4 1
      (fun _ => barkProfile)).verified_peak_pos = [4, 9] := by
    norm_num [test_peaks, test_peaksGo, barkAccept, barkProfile, List.replicate]
  have h := earlyRegionNeverProducesEvents [] [4, 9] 4 1 (fun _ => barkProfile) 10
  refine ⟨h.1 4 (by norm_num [debounceTested]), h.2.1 9 (by rw [hacc]; simp), ?_⟩
  exact h.2.2 ⟨4, 49, 2⟩
    (by rw [hacc]; norm_num [segmentEvents, segmentGo, nextPeakIndex])

/-- C9: the peak detector returns exactly the sample indices whose amplitude
strictly exceeds the threshold, in strictly ascending order (hence no
duplicates and no debounce), and an empty candidate sequence makes the whole
pipeline return zero events rather than an error. -/
theorem peakDetectorCharacterization (y : List ℚ) (threshold : ℚ) :
    (∀ i : ℕ, i ∈ detectPeaks y threshold ↔
      i < y.length ∧ threshold < y.getD i 0) ∧
    (detectPeaks y threshold).Pairwise (fun a b : ℕ => a < b) ∧
    (∀ (sr : ℕ) (wd : ℚ) (profile : List ℚ → List ℚ) (maxInterval : ℚ),
      detectPeaks y threshold = [] →
      calculate_barks y threshold sr wd profile maxInterval = []) := by
  refine ⟨?_, ?_, ?_⟩
  · intro i
    unfold detectPeaks
    rw [List.mem_filter, List.mem_range, decide_eq_true_iff]
  · exact List.Pairwise.sublist (List.filter_sublist _) (List.pairwise_lt_range _)
  · intro sr wd profile maxInterval h
    simp only [calculate_barks, h]
    rfl

theorem peakDetectorCharacterizationWitness :
    calculate_barks [0, 0] 1 4 1 (fun _ => []) 10 = [] := by
  refine (peakDetectorCharacterization [0, 0] 1).2.2 4 1 (fun _ => []) 10 ?_
  norm_num [detectPeaks]
  intro a ha
  interval_cases a <;> norm_num

/-! ## Timestamp theorems -/

/-- C2 counterexample: the numeric stem `"20240115083000"` does not match the
camera convention's pattern `1_%Y-%m-%d_%H-%M-%S_%f`, so resolving it under
the end-of-recording convention raises the parse error (modelled `none`)
instead of returning 2024-01-15 07:30:00. -/
theorem cameraNumericStemFailsToParse :
    get_sample_time "20240115083000.wav" 0 16000 Conv.camera = none := by
  simp only [get_sample_time]
  have h : parseCamera (stemOf "20240115083000.wav") = none := by decide
  rw [h]
  rfl

/-- C2 (amended): `"20240115083000.wav"` under the direct-timestamp (dogmic)
convention resolves sample 0 to 2024-01-15 08:30:00; the same numeric stem
under the camera convention fails to parse (it raises rather than returning a
time); and the camera-format stem denoting the same clock time,
`"1_2024-01-15_08-30-00_0000.wav"`, resolves sample 0 to one hour earlier,
2024-01-15 07:30:00. -/
theorem timestampScenarioResolved :
    get_sample_time "20240115083000.wav" 0 16000 Conv.dogmic
        = some (civilMicros ⟨2024, 1, 15, 8, 30, 0, 0⟩) ∧
    get_sample_time "20240115083000.wav" 0 16000 Conv.camera = none ∧
    get_sample_time "1_2024-01-15_08-30-00_0000.wav" 0 16000 Conv.camera
        = some (civilMicros ⟨2024, 1, 15, 8, 30, 0, 0⟩ - 3600 * 1000000) ∧
    civilMicros ⟨2024, 1, 15, 8, 30, 0, 0⟩ - 3600 * 1000000
        = civilMicros ⟨2024, 1, 15, 7, 30, 0, 0⟩ := by
  have ht : truncQ (0 / (16000 : ℚ)) = 0 := by norm_num [truncQ]
  have ht0 : truncQ 0 = 0 := by norm_num [truncQ]
  refine ⟨?_, ?_, ?_, by decide⟩
  · simp only [get_sample_time]
    have h : parseDogmic (stemOf "20240115083000.wav")
        = some ⟨2024, 1, 15, 8, 30, 0, 0⟩ := by decide
    rw [h]
    simp [ht, ht0]
  · simp only [get_sample_time]
    have h : parseCamera (stemOf "20240115083000.wav") = none := by decide
    rw [h]
    rfl
  · simp only [get_sample_time]
    have h : parseCamera (stemOf "1_2024-01-15_08-30-00_0000.wav")
        = some ⟨2024, 1, 15, 8, 30, 0, 0⟩ := by decide
    rw [h]
    simp [ht, ht0]

theorem parseDogmicNonPadded :
    parseDogmic "2024115083000" = some ⟨2024, 11, 5, 8, 30, 0, 0⟩ := by decide

theorem parseDogmicBacktracks :
    parseDogmic "202411111" = some ⟨2024, 1, 1, 1, 1, 1, 0⟩ := by decide

theorem parseCameraNonPadded :
    parseCamera "1_2024-1-15_08-30-00_0" = some ⟨2024, 1, 15, 8, 30, 0, 0⟩ := by
  decide

